import Mathlib

/-!
# LoadBalancingProxyServer: round-robin selection

A shallow embedding of `src/LoadBalancingProxyServer.go`.

* Go's `int` is modelled on a 64-bit target: values are `Int`s kept inside
  `[minInt, maxInt]`, and `++` wraps around (`wrapInt`).
* Go's `%` truncates towards zero (`Int.tmod`) and panics on a zero divisor.
* Indexing a slice panics when the index is negative or not below the length.
* The `for !server.IsAlive()` loop is run with a fuel that counts executions of
  the loop body; an `Outcome.running` result says the loop condition still
  holds after that many executions.
* `fmt.Printf`, `Serve` and `os.Exit` are recorded as events, in program order.
-/

namespace LoadBalancingProxyServer

/-! ## Machine integers -/

/-- Largest value of a Go `int` (64-bit target). -/
def maxInt : Int := 9223372036854775807

/-- Smallest value of a Go `int` (64-bit target). -/
def minInt : Int := -9223372036854775808

/-- Two's-complement wrap-around of an integer result into `[minInt, maxInt]`. -/
def wrapInt (x : Int) : Int := (x - minInt) % 18446744073709551616 + minInt

/-- Run-time panics the selection code can raise. -/
inductive Panic where
  | integerDivideByZero
  | indexOutOfRange
  deriving DecidableEq, Repr

/-- Go's `a % b` on `int`: truncated remainder, panic when `b = 0`. -/
def goRem (a b : Int) : Except Panic Int :=
  if b = 0 then .error .integerDivideByZero else .ok (Int.tmod a b)

/-! ## Servers -/

/-- A value of the `Server` interface, seen through its two observers:
what `Address()` returns and what `IsAlive()` returns, each taken as a fixed
value of the server (liveness does not change while a call runs). -/
structure Server where
  Address : String
  IsAlive : Bool
  deriving DecidableEq, Repr

/-- The target descriptor produced by `url.Parse`. -/
structure URL where
  raw : String
  deriving DecidableEq, Repr

/-- The reverse proxy built by `httputil.NewSingleHostReverseProxy` from the
`*url.URL` it is given (`none` for a nil pointer). -/
structure ReverseProxy where
  target : Option URL
  deriving DecidableEq, Repr

/-- The struct `SimpleServer`. -/
structure SimpleServer where
  addr : String
  proxy : ReverseProxy
  deriving DecidableEq, Repr

/-- Method `(*SimpleServer).Address`. -/
def SimpleServer.Address (s : SimpleServer) : String := s.addr

/-- Method `(*SimpleServer).IsAlive`: "just return true for now". -/
def SimpleServer.IsAlive (_s : SimpleServer) : Bool := true

/-- A `SimpleServer` used as a `Server`. -/
def SimpleServer.toServer (s : SimpleServer) : Server :=
  { Address := s.Address, IsAlive := s.IsAlive }

/-! ## Observable events -/

/-- What the program does to the outside world. `ρ` is the type of requests
(the pair of response writer and request handed to the handler). -/
inductive Event (ρ : Type) where
  /-- Call `fmt.Printf format arg`. -/
  | printf (format : String) (arg : String)
  /-- Call `server.Serve(rw, req)`. -/
  | serve (server : Server) (req : ρ)
  deriving DecidableEq, Repr

/-- A start-up computation: it either goes on with a value, or the process
exits with a status. Both carry what was printed. -/
inductive Startup (α : Type) where
  | continues (printed : List (String × String)) (value : α)
  | exited (printed : List (String × String)) (status : Int)
  deriving DecidableEq, Repr

/-- Function `handleErr`: on a non-nil error print it and `os.Exit(1)`. -/
def handleErr (err : Option String) : Startup Unit :=
  match err with
  | some e => .exited [("error: %v\n", e)] 1
  | none => .continues [] ()

/-- Function `newSimpleServer`, with `url.Parse` (standard library) taken as
the parameter `parse`; on an error `url.Parse` hands back a nil URL and the error. -/
def newSimpleServer (parse : String → Except String URL) (addr : String) :
    Startup SimpleServer :=
  let r : Option URL × Option String :=
    match parse addr with
    | .ok u => (some u, none)
    | .error e => (none, some e)
  match handleErr r.2 with
  | .exited printed status => .exited printed status
  | .continues printed _ => .continues printed { addr := addr, proxy := { target := r.1 } }

/-- A stand-in for `url.Parse` on sample inputs: like `url.Parse`, it rejects an
address holding an ASCII control character. -/
def sampleParse (addr : String) : Except String URL :=
  if addr.data.any (fun ch => ch.toNat < 32 || ch.toNat == 127) then
    .error "net/url: invalid control character in URL"
  else .ok { raw := addr }

/-! ## The load balancer -/

/-- The struct `LoadBalancer`. -/
structure LoadBalancer where
  port : String
  roundRobinCount : Int
  servers : List Server
  deriving DecidableEq, Repr

/-- Function `newLoadBalancer`. -/
def newLoadBalancer (port : String) (servers : List Server) : LoadBalancer :=
  { port := port, roundRobinCount := 0, servers := servers }

/-- Slice indexing `servers[i]` with Go's bounds check. -/
def indexServers (servers : List Server) (i : Int) : Except Panic Server :=
  if i < 0 then .error .indexOutOfRange
  else
    match servers[i.toNat]? with
    | some s => .ok s
    | none => .error .indexOutOfRange

/-- The expression `lb.servers[lb.roundRobinCount%len(lb.servers)]`. -/
def currentServer (lb : LoadBalancer) : Except Panic Server :=
  match goRem lb.roundRobinCount (lb.servers.length : Int) with
  | .error p => .error p
  | .ok i => indexServers lb.servers i

/-- The statement `lb.roundRobinCount++`. -/
def LoadBalancer.incr (lb : LoadBalancer) : LoadBalancer :=
  { lb with roundRobinCount := wrapInt (lb.roundRobinCount + 1) }

/-- How a run of `getNextAvailableServer` stands, with the load balancer state
at that point. -/
inductive Outcome where
  /-- The function returned `server`. -/
  | returned (server : Server) (lb : LoadBalancer)
  /-- The function panicked. -/
  | panicked (p : Panic) (lb : LoadBalancer)
  /-- The loop body ran as often as the fuel allows and the loop goes on. -/
  | running (lb : LoadBalancer)
  deriving DecidableEq, Repr

/-- The loop `for !server.IsAlive() ...` of `getNextAvailableServer`;
`.returned server lb` stands for leaving the loop with these values. -/
def skipLoop : Nat → LoadBalancer → Server → Outcome
  | fuel, lb, server =>
    if server.IsAlive then .returned server lb
    else
      match fuel with
      | 0 => .running lb
      | fuel + 1 =>
        let lb1 := lb.incr
        match currentServer lb1 with
        | .error p => .panicked p lb1
        | .ok server1 => skipLoop fuel lb1 server1

/-- Method `(*LoadBalancer).getNextAvailableServer`. -/
def getNextAvailableServer (fuel : Nat) (lb : LoadBalancer) : Outcome :=
  match currentServer lb with
  | .error p => .panicked p lb
  | .ok server =>
    match skipLoop fuel lb server with
    | .returned server1 lb1 => .returned server1 lb1.incr
    | .panicked p lb1 => .panicked p lb1
    | .running lb1 => .running lb1

/-- How a run of `serveProxy` stands: the events so far and the state. -/
inductive ProxyOutcome (ρ : Type) where
  | finished (events : List (Event ρ)) (lb : LoadBalancer)
  | panicked (events : List (Event ρ)) (p : Panic) (lb : LoadBalancer)
  | running (events : List (Event ρ)) (lb : LoadBalancer)
  deriving DecidableEq, Repr

/-- Method `(*LoadBalancer).serveProxy`. -/
def serveProxy {ρ : Type} (fuel : Nat) (lb : LoadBalancer) (req : ρ) : ProxyOutcome ρ :=
  match getNextAvailableServer fuel lb with
  | .panicked p lb1 => .panicked [] p lb1
  | .running lb1 => .running [] lb1
  | .returned targetServer lb1 =>
    .finished
      [.printf "forwarding request to address %q\n" targetServer.Address,
       .serve targetServer req] lb1

/-! ## Sequences of calls -/

/-- The call number `k` (counting from 0) in a run of consecutive calls of
`getNextAvailableServer` that starts in `lb`; a call that does not return ends
the run and is the result. -/
def nthCall (fuel : Nat) : Nat → LoadBalancer → Outcome
  | 0, lb => getNextAvailableServer fuel lb
  | k + 1, lb =>
    match getNextAvailableServer fuel lb with
    | .returned _ lb1 => nthCall fuel k lb1
    | other => other

/-- The servers returned by the first `k` consecutive calls, as far as the
calls return. -/
def firstCalls (fuel : Nat) : Nat → LoadBalancer → List Server
  | 0, _ => []
  | k + 1, lb =>
    match getNextAvailableServer fuel lb with
    | .returned s lb1 => s :: firstCalls fuel k lb1
    | _ => []

/-- `ReachedIn fuel lb0 k lb`: `k` consecutive returning calls lead from `lb0`
to `lb`. -/
inductive ReachedIn (fuel : Nat) (lb0 : LoadBalancer) : Nat → LoadBalancer → Prop where
  | start : ReachedIn fuel lb0 0 lb0
  | call {k : Nat} {lb1 lb2 : LoadBalancer} {s : Server} :
      ReachedIn fuel lb0 k lb1 → getNextAvailableServer fuel lb1 = .returned s lb2 →
      ReachedIn fuel lb0 (k + 1) lb2

/-- Liveness of the server at a pool index (`false` outside the pool). -/
def aliveAt (servers : List Server) (i : Nat) : Bool :=
  match servers[i]? with
  | some s => s.IsAlive
  | none => false

/-! ## Sample pools -/

def srvA : Server := { Address := "https://www.github.com", IsAlive := true }
def srvB : Server := { Address := "https://www.amazon.com", IsAlive := true }
def srvC : Server := { Address := "https://www.medium.com", IsAlive := true }
def deadA : Server := { Address := "https://www.github.com", IsAlive := false }
def deadB : Server := { Address := "https://www.amazon.com", IsAlive := false }
def deadC : Server := { Address := "https://www.medium.com", IsAlive := false }

/-! ## Machine integer facts -/

theorem wrapInt_of_inRange {x : Int} (h1 : minInt ≤ x) (h2 : x ≤ maxInt) : wrapInt x = x := by
  unfold wrapInt minInt maxInt at *
  omega

theorem wrapInt_succ_nat {n : Nat} (h : (n : Int) + 1 ≤ maxInt) :
    wrapInt ((n : Int) + 1) = ((n + 1 : Nat) : Int) := by
  rw [wrapInt_of_inRange (by unfold minInt; omega) h]
  push_cast
  rfl

theorem wrapInt_succ_maxInt : wrapInt (maxInt + 1) = minInt := by
  unfold wrapInt minInt maxInt
  omega

theorem incr_nat {port : String} {servers : List Server} {n : Nat}
    (h : (n : Int) + 1 ≤ maxInt) :
    LoadBalancer.incr ⟨port, (n : Int), servers⟩ = ⟨port, ((n + 1 : Nat) : Int), servers⟩ := by
  simp only [LoadBalancer.incr, wrapInt_succ_nat h]

/-! ## The pool lookup -/

theorem pos_of_getElem? {servers : List Server} {i : Nat} {s : Server}
    (h : servers[i % servers.length]? = some s) : 0 < servers.length := by
  rcases Nat.eq_zero_or_pos servers.length with h0 | h0
  · have : servers = [] := List.length_eq_zero.mp h0
    subst this
    simp at h
  · exact h0

theorem getElem?_mod_of_pos {servers : List Server} (hN : 0 < servers.length) (i : Nat) :
    ∃ s, servers[i % servers.length]? = some s ∧ s ∈ servers := by
  have hlt : i % servers.length < servers.length := Nat.mod_lt _ hN
  exact ⟨servers[i % servers.length], List.getElem?_eq_getElem hlt, List.getElem_mem _⟩

theorem currentServer_nat {port : String} {servers : List Server} {n : Nat} {s : Server}
    (h : servers[n % servers.length]? = some s) :
    currentServer ⟨port, (n : Int), servers⟩ = .ok s := by
  have hN := pos_of_getElem? h
  have hne : ¬ ((servers.length : Int) = 0) := by omega
  have ht : Int.tmod (n : Int) (servers.length : Int) = ((n % servers.length : Nat) : Int) := by
    rw [Int.tmod_eq_emod (by omega) (by omega)]
    simp
  simp only [currentServer, goRem, hne, if_false, ht, indexServers]
  have hnn : ¬ (((n % servers.length : Nat) : Int) < 0) := by omega
  simp only [hnn, if_false, Int.toNat_ofNat, h]

theorem currentServer_empty (port : String) (c : Int) :
    currentServer ⟨port, c, []⟩ = .error .integerDivideByZero := by
  simp [currentServer, goRem]

/-! ## The skip loop -/

theorem skipLoop_alive (fuel : Nat) (lb : LoadBalancer) {s : Server} (h : s.IsAlive = true) :
    skipLoop fuel lb s = .returned s lb := by
  cases fuel <;> simp [skipLoop, h]

theorem skipLoop_dead_zero (lb : LoadBalancer) {s : Server} (h : s.IsAlive = false) :
    skipLoop 0 lb s = .running lb := by
  simp [skipLoop, h]

theorem skipLoop_dead_succ (fuel : Nat) (lb : LoadBalancer) {s : Server}
    (h : s.IsAlive = false) :
    skipLoop (fuel + 1) lb s =
      match currentServer lb.incr with
      | .error p => .panicked p lb.incr
      | .ok server1 => skipLoop fuel lb.incr server1 := by
  simp [skipLoop, h]

theorem aliveAt_of_getElem? {servers : List Server} {i : Nat} {s : Server}
    (h : servers[i]? = some s) : aliveAt servers i = s.IsAlive := by
  simp [aliveAt, h]

/-- The loop leaves at the first alive server it meets, `d` positions on, as long as
the cursor does not pass `maxInt` on the way. -/
theorem skipLoop_finds {port : String} {servers : List Server} :
    ∀ (d n fuel : Nat) (s0 s : Server), d ≤ fuel → (n : Int) + d ≤ maxInt →
      servers[n % servers.length]? = some s0 →
      (∀ j, j < d → aliveAt servers ((n + j) % servers.length) = false) →
      servers[(n + d) % servers.length]? = some s → s.IsAlive = true →
      skipLoop fuel ⟨port, (n : Int), servers⟩ s0
        = .returned s ⟨port, ((n + d : Nat) : Int), servers⟩ := by
  intro d
  induction d with
  | zero =>
    intro n fuel s0 s _ _ h0 _ hs ha
    simp only [Nat.add_zero] at hs
    have : s0 = s := by rw [h0] at hs; exact Option.some.inj hs
    subst this
    simpa using skipLoop_alive fuel ⟨port, (n : Int), servers⟩ ha
  | succ d ih =>
    intro n fuel s0 s hf hmax h0 hdead hs ha
    obtain ⟨fuel, rfl⟩ : ∃ f, fuel = f + 1 := ⟨fuel - 1, by omega⟩
    have hd0 : s0.IsAlive = false := by
      have := hdead 0 (by omega)
      rwa [Nat.add_zero, aliveAt_of_getElem? h0] at this
    obtain ⟨s1, hs1, _⟩ := getElem?_mod_of_pos (pos_of_getElem? h0) (n + 1)
    have hstep : (n : Int) + 1 ≤ maxInt := by push_cast at hmax; omega
    rw [skipLoop_dead_succ fuel _ hd0, incr_nat hstep, currentServer_nat hs1]
    have := ih (n + 1) fuel s1 s (by omega) (by push_cast at hmax ⊢; omega) hs1
      (fun j hj => by
        have := hdead (j + 1) (by omega)
        rwa [show n + (j + 1) = n + 1 + j by omega] at this)
      (by rwa [show n + 1 + d = n + (d + 1) by omega]) ha
    simpa [show n + 1 + d = n + (d + 1) by omega] using this

/-- While the servers met are not alive the loop goes on, one cursor step per execution
of its body, as long as the cursor does not pass `maxInt`. -/
theorem skipLoop_runs {port : String} {servers : List Server} :
    ∀ (fuel n : Nat) (s0 : Server), servers[n % servers.length]? = some s0 →
      (∀ j, j ≤ fuel → aliveAt servers ((n + j) % servers.length) = false) →
      (n : Int) + fuel ≤ maxInt →
      skipLoop fuel ⟨port, (n : Int), servers⟩ s0
        = .running ⟨port, ((n + fuel : Nat) : Int), servers⟩ := by
  intro fuel
  induction fuel with
  | zero =>
    intro n s0 hs0 hdead _
    have hd0 : s0.IsAlive = false := by
      have := hdead 0 (by omega)
      rwa [Nat.add_zero, aliveAt_of_getElem? hs0] at this
    simpa using skipLoop_dead_zero ⟨port, (n : Int), servers⟩ hd0
  | succ fuel ih =>
    intro n s0 hs0 hdead hmax
    have hd0 : s0.IsAlive = false := by
      have := hdead 0 (by omega)
      rwa [Nat.add_zero, aliveAt_of_getElem? hs0] at this
    obtain ⟨s1, hs1, _⟩ := getElem?_mod_of_pos (pos_of_getElem? hs0) (n + 1)
    have hstep : (n : Int) + 1 ≤ maxInt := by push_cast at hmax; omega
    rw [skipLoop_dead_succ fuel _ hd0, incr_nat hstep, currentServer_nat hs1]
    have := ih (n + 1) s1 hs1
      (fun j hj => by
        have := hdead (j + 1) (by omega)
        rwa [show n + (j + 1) = n + 1 + j by omega] at this)
      (by push_cast at hmax ⊢; omega)
    simpa [show n + 1 + fuel = n + (fuel + 1) by omega] using this

theorem aliveAt_false_of_allDead {servers : List Server}
    (hdead : ∀ s ∈ servers, s.IsAlive = false) (i : Nat) : aliveAt servers i = false := by
  unfold aliveAt
  cases hg : servers[i]? with
  | none => rfl
  | some s => exact hdead s (List.getElem?_mem hg)

/-- Whatever the cursor and the fuel, the loop is left only with an alive server, and it
touches neither the pool nor the port. -/
theorem skipLoop_returned :
    ∀ (fuel : Nat) (lb : LoadBalancer) (s0 s : Server) (lb1 : LoadBalancer),
      skipLoop fuel lb s0 = .returned s lb1 →
      s.IsAlive = true ∧ lb1.servers = lb.servers ∧ lb1.port = lb.port := by
  intro fuel
  induction fuel with
  | zero =>
    intro lb s0 s lb1 h
    cases ha : s0.IsAlive with
    | true =>
      rw [skipLoop_alive 0 lb ha] at h
      cases h
      exact ⟨ha, rfl, rfl⟩
    | false =>
      rw [skipLoop_dead_zero lb ha] at h
      cases h
  | succ fuel ih =>
    intro lb s0 s lb1 h
    cases ha : s0.IsAlive with
    | true =>
      rw [skipLoop_alive _ lb ha] at h
      cases h
      exact ⟨ha, rfl, rfl⟩
    | false =>
      rw [skipLoop_dead_succ fuel lb ha] at h
      cases hc : currentServer lb.incr with
      | error p =>
        rw [hc] at h
        cases h
      | ok s1 =>
        rw [hc] at h
        have := ih lb.incr s1 s lb1 h
        exact ⟨this.1, this.2.1, this.2.2⟩

theorem currentServer_mem {lb : LoadBalancer} {s : Server} (h : currentServer lb = .ok s) :
    s ∈ lb.servers := by
  unfold currentServer at h
  cases hr : goRem lb.roundRobinCount (lb.servers.length : Int) with
  | error p => rw [hr] at h; cases h
  | ok i =>
    rw [hr] at h
    simp only [indexServers] at h
    split at h
    · cases h
    · cases hg : lb.servers[i.toNat]? with
      | none => rw [hg] at h; cases h
      | some s1 =>
        rw [hg] at h
        cases h
        exact List.getElem?_mem hg

theorem skipLoop_returned_mem :
    ∀ (fuel : Nat) (lb : LoadBalancer) (s0 s : Server) (lb1 : LoadBalancer),
      s0 ∈ lb.servers → skipLoop fuel lb s0 = .returned s lb1 → s ∈ lb.servers := by
  intro fuel
  induction fuel with
  | zero =>
    intro lb s0 s lb1 hm h
    cases ha : s0.IsAlive with
    | true =>
      rw [skipLoop_alive 0 lb ha] at h
      cases h
      exact hm
    | false =>
      rw [skipLoop_dead_zero lb ha] at h
      cases h
  | succ fuel ih =>
    intro lb s0 s lb1 hm h
    cases ha : s0.IsAlive with
    | true =>
      rw [skipLoop_alive _ lb ha] at h
      cases h
      exact hm
    | false =>
      rw [skipLoop_dead_succ fuel lb ha] at h
      cases hc : currentServer lb.incr with
      | error p =>
        rw [hc] at h
        cases h
      | ok s1 =>
        rw [hc] at h
        exact ih lb.incr s1 s lb1 (currentServer_mem hc) h

/-! ## One selection call -/

/-- A returned server is alive and comes from the pool; pool and port are left as they
were. This holds for every cursor and every fuel. -/
theorem getNext_returned {fuel : Nat} {lb lb1 : LoadBalancer} {s : Server}
    (h : getNextAvailableServer fuel lb = .returned s lb1) :
    s.IsAlive = true ∧ s ∈ lb.servers ∧ lb1.servers = lb.servers ∧ lb1.port = lb.port := by
  cases hc : currentServer lb with
  | error p => simp only [getNextAvailableServer, hc] at h; cases h
  | ok s0 =>
    cases hl : skipLoop fuel lb s0 with
    | returned s1 lb2 =>
      have hr := skipLoop_returned fuel lb s0 s1 lb2 hl
      have hm := skipLoop_returned_mem fuel lb s0 s1 lb2 (currentServer_mem hc) hl
      simp only [getNextAvailableServer, hc, hl, Outcome.returned.injEq] at h
      obtain ⟨rfl, rfl⟩ := h
      exact ⟨hr.1, hm, hr.2.1, hr.2.2⟩
    | panicked p lb2 => simp only [getNextAvailableServer, hc, hl] at h; cases h
    | running lb2 => simp only [getNextAvailableServer, hc, hl] at h; cases h

/-- From a cursor `n ≥ 0`, with the first alive server `d` positions on and
`n + d ≤ maxInt`, a call with at least `d` fuel returns that server and leaves the
cursor at `n + d + 1`, wrapped. -/
theorem getNext_finds (port : String) {servers : List Server} {n d fuel : Nat} {s : Server}
    (hf : d ≤ fuel) (hmax : (n : Int) + d ≤ maxInt)
    (hdead : ∀ j, j < d → aliveAt servers ((n + j) % servers.length) = false)
    (hs : servers[(n + d) % servers.length]? = some s) (ha : s.IsAlive = true) :
    getNextAvailableServer fuel ⟨port, (n : Int), servers⟩
      = .returned s ⟨port, wrapInt (((n + d : Nat) : Int) + 1), servers⟩ := by
  obtain ⟨s0, hs0, _⟩ := getElem?_mod_of_pos (pos_of_getElem? hs) n
  unfold getNextAvailableServer
  rw [currentServer_nat hs0]
  simp only [skipLoop_finds d n fuel s0 s hf hmax hs0 hdead hs ha, LoadBalancer.incr]

/-- In a pool with an alive server, from every position there is a first alive server
less than a pool length away. -/
theorem exists_first_alive {servers : List Server} (h : ∃ s ∈ servers, s.IsAlive = true)
    (n : Nat) :
    ∃ d, d < servers.length ∧ aliveAt servers ((n + d) % servers.length) = true ∧
      ∀ j, j < d → aliveAt servers ((n + j) % servers.length) = false := by
  obtain ⟨s, hmem, ha⟩ := h
  obtain ⟨i, hi, hget⟩ := List.getElem_of_mem hmem
  set N := servers.length with hNdef
  have hex : ∃ d, aliveAt servers ((n + d) % N) = true := by
    refine ⟨(i + N - n % N) % N, ?_⟩
    have hr : n % N < N := Nat.mod_lt _ (by omega)
    have : (n + (i + N - n % N) % N) % N = i := by
      have hn := Nat.div_add_mod n N
      rw [Nat.add_mod_mod]
      rw [show n + (i + N - n % N) = i + N * (n / N + 1) by
        rw [Nat.mul_add, Nat.mul_one]; omega]
      rw [Nat.add_mul_mod_self_left, Nat.mod_eq_of_lt hi]
    rw [this, aliveAt_of_getElem? (List.getElem?_eq_getElem hi), hget, ha]
  classical
  refine ⟨Nat.find hex, ?_, Nat.find_spec hex, ?_⟩
  · by_contra hge
    have hge : N ≤ Nat.find hex := by omega
    have hspec := Nat.find_spec hex
    have hlt : Nat.find hex - N < Nat.find hex := by omega
    have hmin := Nat.find_min hex hlt
    apply hmin
    have : (n + (Nat.find hex - N)) % N = (n + Nat.find hex) % N := by
      conv_rhs => rw [show n + Nat.find hex = n + (Nat.find hex - N) + N by omega]
      rw [Nat.add_mod_right]
    rw [this]
    exact hspec
  · intro j hj
    have := Nat.find_min hex hj
    simpa using this

/-- While the first `fuel + 1` servers met are not alive, a call is still in its loop
after `fuel` executions of the loop body. -/
theorem getNext_runs (port : String) {servers : List Server} {n fuel : Nat}
    (hN : 0 < servers.length)
    (hdead : ∀ j, j ≤ fuel → aliveAt servers ((n + j) % servers.length) = false)
    (hmax : (n : Int) + fuel ≤ maxInt) :
    getNextAvailableServer fuel ⟨port, (n : Int), servers⟩
      = .running ⟨port, ((n + fuel : Nat) : Int), servers⟩ := by
  obtain ⟨s0, hs0, _⟩ := getElem?_mod_of_pos hN n
  unfold getNextAvailableServer
  rw [currentServer_nat hs0]
  simp only [skipLoop_runs fuel n s0 hs0 hdead hmax]

/-- A call that returns from a cursor `n ≥ 0` with `n + servers.length ≤ maxInt` has
advanced the cursor by at least one and at most the pool length. -/
theorem getNext_returned_cursor {port : String} {servers : List Server} {n fuel : Nat}
    {s : Server} {lb1 : LoadBalancer} (halive : ∃ s ∈ servers, s.IsAlive = true)
    (hmax : (n : Int) + servers.length ≤ maxInt)
    (h : getNextAvailableServer fuel ⟨port, (n : Int), servers⟩ = .returned s lb1) :
    (n : Int) < lb1.roundRobinCount ∧ lb1.roundRobinCount ≤ (n : Int) + servers.length := by
  obtain ⟨d, hd, ha, hdead⟩ := exists_first_alive halive n
  have hN : 0 < servers.length := by omega
  obtain ⟨s1, hs1, _⟩ := getElem?_mod_of_pos hN (n + d)
  rw [aliveAt_of_getElem? hs1] at ha
  rcases Nat.lt_or_ge fuel d with hlt | hge
  · have hrun := getNext_runs port hN
      (fun j hj => hdead j (by omega)) (by omega : (n : Int) + fuel ≤ maxInt)
    rw [hrun] at h
    cases h
  · have hfind := getNext_finds port hge (by omega) hdead hs1 ha
    rw [hfind] at h
    cases h
    simp only
    rw [wrapInt_of_inRange (by unfold minInt; omega) (by push_cast; omega)]
    push_cast
    omega

/-! ## Consecutive calls on a pool of alive servers -/

theorem getNext_allAlive (port : String) {servers : List Server}
    (hall : ∀ s ∈ servers, s.IsAlive = true) (hN : 0 < servers.length) (fuel n : Nat)
    (hmax : (n : Int) ≤ maxInt) :
    ∃ s, servers[n % servers.length]? = some s ∧
      getNextAvailableServer fuel ⟨port, (n : Int), servers⟩
        = .returned s ⟨port, wrapInt ((n : Int) + 1), servers⟩ := by
  obtain ⟨s, hs, hmem⟩ := getElem?_mod_of_pos hN n
  refine ⟨s, hs, ?_⟩
  have := getNext_finds port (n := n) (d := 0) (Nat.zero_le fuel)
    (by simpa using hmax) (fun j hj => absurd hj (Nat.not_lt_zero j)) hs (hall s hmem)
  simpa using this

theorem nthCall_allAlive (port : String) {servers : List Server}
    (hall : ∀ s ∈ servers, s.IsAlive = true) (hN : 0 < servers.length) (fuel : Nat) :
    ∀ (k n : Nat), (n : Int) ≤ maxInt → (n : Int) + k ≤ maxInt + 1 →
      nthCall fuel k ⟨port, (n : Int), servers⟩
        = getNextAvailableServer fuel ⟨port, wrapInt ((n : Int) + k), servers⟩ := by
  intro k
  induction k with
  | zero =>
    intro n hn _
    rw [nthCall]
    simp only [Nat.cast_zero, add_zero]
    rw [wrapInt_of_inRange (by unfold minInt; omega) hn]
  | succ k ih =>
    intro n hn h
    obtain ⟨s, _, hcall⟩ := getNext_allAlive port hall hN fuel n hn
    rw [nthCall, hcall]
    simp only
    rcases lt_or_ge (n : Int) maxInt with hlt | hge
    · rw [wrapInt_succ_nat (by omega), ih (n + 1) (by push_cast; omega) (by push_cast at h ⊢; omega)]
      push_cast
      rw [show (n : Int) + 1 + k = n + (k + 1) by omega]
    · have hk : k = 0 := by push_cast at h; omega
      subst hk
      rw [nthCall]
      simp

theorem reachedIn_allAlive (port : String) {servers : List Server}
    (hall : ∀ s ∈ servers, s.IsAlive = true) (hN : 0 < servers.length) (fuel n : Nat) :
    ∀ (k : Nat), (n : Int) + k ≤ maxInt →
      ReachedIn fuel ⟨port, (n : Int), servers⟩ k ⟨port, ((n + k : Nat) : Int), servers⟩ := by
  intro k
  induction k with
  | zero =>
    intro _
    exact ReachedIn.start
  | succ k ih =>
    intro h
    have hprev := ih (by push_cast at h; omega)
    obtain ⟨s, _, hcall⟩ := getNext_allAlive port hall hN fuel (n + k)
      (by push_cast at h ⊢; omega)
    rw [wrapInt_succ_nat (by push_cast at h ⊢; omega)] at hcall
    exact ReachedIn.call hprev hcall

/-- After `k` returning calls from a fresh load balancer, with `k * N ≤ maxInt`, the
cursor lies in `[0, k * N]`; pool and port are the initial ones. -/
theorem reachedIn_inv {fuel : Nat} {port : String} {servers : List Server}
    (halive : ∃ s ∈ servers, s.IsAlive = true) {k : Nat} {lb : LoadBalancer}
    (hr : ReachedIn fuel (newLoadBalancer port servers) k lb) :
    (k : Int) * servers.length ≤ maxInt →
      lb.port = port ∧ lb.servers = servers ∧ 0 ≤ lb.roundRobinCount ∧
        lb.roundRobinCount ≤ (k : Int) * servers.length := by
  induction hr with
  | start =>
    intro _
    exact ⟨rfl, rfl, by simp [newLoadBalancer], by simp [newLoadBalancer]⟩
  | @call k lb1 lb2 s _ hcall ih =>
    intro hk
    have hexp : ((k + 1 : Nat) : Int) * servers.length
        = (k : Int) * servers.length + servers.length := by push_cast; ring
    rw [hexp] at hk ⊢
    obtain ⟨hp, hs, h0, hle⟩ := ih (by omega)
    obtain ⟨p1, c1, sv1⟩ := lb1
    simp only at hp hs h0 hle
    subst hp hs
    obtain ⟨n, rfl⟩ := Int.eq_ofNat_of_zero_le h0
    have hfr := getNext_returned hcall
    have hcur := getNext_returned_cursor halive (by omega) hcall
    exact ⟨hfr.2.2.2, hfr.2.2.1, by omega, by omega⟩

theorem firstCalls_allAlive (port : String) {servers : List Server}
    (hall : ∀ s ∈ servers, s.IsAlive = true) (hmax : (servers.length : Int) ≤ maxInt)
    (fuel : Nat) :
    ∀ (l : List Server) (n : Nat), servers.drop n = l →
      firstCalls fuel l.length ⟨port, (n : Int), servers⟩ = l := by
  intro l
  induction l with
  | nil =>
    intro n _
    rfl
  | cons x l ih =>
    intro n hdrop
    have hlt : n < servers.length := by
      by_contra hge
      rw [List.drop_eq_nil_of_le (by omega)] at hdrop
      cases hdrop
    have hx : servers[n]? = some x := by
      have := congrArg List.head? hdrop
      simpa [List.head?_drop] using this
    have htail : servers.drop (n + 1) = l := by
      have := congrArg List.tail hdrop
      simpa [List.tail_drop] using this
    obtain ⟨s, hs, hcall⟩ := getNext_allAlive port hall (by omega) fuel n (by omega)
    rw [Nat.mod_eq_of_lt hlt, hx] at hs
    cases hs
    rw [List.length_cons, firstCalls, hcall]
    simp only
    rw [wrapInt_succ_nat (by omega), ih (n + 1) htail]

/-! ## A pool with no alive server -/

theorem getNext_never_returns_allDead {servers : List Server}
    (hdead : ∀ s ∈ servers, s.IsAlive = false) (fuel : Nat) (port : String) (c : Int)
    (s : Server) (lb1 : LoadBalancer) :
    getNextAvailableServer fuel ⟨port, c, servers⟩ ≠ .returned s lb1 := by
  intro h
  have hr := getNext_returned h
  have := hdead s hr.2.1
  rw [hr.1] at this
  cases this

theorem currentServer_single (port : String) (c : Int) (s : Server) :
    currentServer ⟨port, c, [s]⟩ = .ok s := by
  simp [currentServer, goRem, indexServers]

theorem skipLoop_single_dead (port : String) {s : Server} (hd : s.IsAlive = false) :
    ∀ (fuel : Nat) (c : Int), ∃ lb1, skipLoop fuel ⟨port, c, [s]⟩ s = .running lb1 := by
  intro fuel
  induction fuel with
  | zero =>
    intro c
    exact ⟨_, skipLoop_dead_zero _ hd⟩
  | succ fuel ih =>
    intro c
    rw [skipLoop_dead_succ fuel _ hd]
    simp only [LoadBalancer.incr, currentServer_single]
    exact ih _

/-! ## Claims -/

/-- C1, amended. On a load balancer freshly built by `newLoadBalancer` over a non-empty
pool of alive servers, call number `k` (counting from 0) returns the server at pool index
`k mod N` for every `k ≤ maxInt = 2^63 - 1`, whatever the fuel; and when the pool length
fits an `int`, the first `N` calls return the servers of the pool once each, in pool
order. -/
theorem C1_round_robin_all_alive (fuel : Nat) (port : String) (servers : List Server)
    (k : Nat) (hne : servers ≠ []) (hall : ∀ s ∈ servers, s.IsAlive = true)
    (hk : (k : Int) ≤ maxInt) :
    (∃ s lb1, servers[k % servers.length]? = some s ∧
        nthCall fuel k (newLoadBalancer port servers) = .returned s lb1) ∧
      ((servers.length : Int) ≤ maxInt →
        firstCalls fuel servers.length (newLoadBalancer port servers) = servers) := by
  have hN : 0 < servers.length := List.length_pos.mpr hne
  have hnew : newLoadBalancer port servers = ⟨port, ((0 : Nat) : Int), servers⟩ := rfl
  constructor
  · have h0 : ((0 : Nat) : Int) ≤ maxInt := by unfold maxInt; omega
    rw [hnew, nthCall_allAlive port hall hN fuel k 0 h0 (by omega)]
    rw [show ((0 : Nat) : Int) + (k : Int) = (k : Int) by simp]
    rw [wrapInt_of_inRange (by unfold minInt; omega) hk]
    obtain ⟨s, hs, hcall⟩ := getNext_allAlive port hall hN fuel k hk
    exact ⟨s, _, hs, hcall⟩
  · intro hmax
    rw [hnew]
    exact firstCalls_allAlive port hall hmax fuel servers 0 rfl

/-- C1, witness: pool [A, B, C], all alive; four calls return A, B, C, A. -/
theorem C1_round_robin_all_alive_witness :
    ((∃ s lb1, [srvA, srvB, srvC][3 % [srvA, srvB, srvC].length]? = some s ∧
        nthCall 0 3 (newLoadBalancer "8001" [srvA, srvB, srvC]) = .returned s lb1) ∧
      ((([srvA, srvB, srvC].length : Nat) : Int) ≤ maxInt →
        firstCalls 0 [srvA, srvB, srvC].length (newLoadBalancer "8001" [srvA, srvB, srvC])
          = [srvA, srvB, srvC])) ∧
    firstCalls 0 4 (newLoadBalancer "8001" [srvA, srvB, srvC]) = [srvA, srvB, srvC, srvA] :=
  ⟨C1_round_robin_all_alive 0 "8001" [srvA, srvB, srvC] 3 (by decide) (by decide) (by decide),
    by decide⟩

/-- C1, counterexample to the claim as stated (every `k`): on the pool [A, B, C], all
alive, call number `k = 2^63` does not return the server at index `k mod 3 = 2`; the
cursor has wrapped to `minInt`, `minInt % 3` is `-2`, and the call panics. -/
theorem C1_counterexample :
    [srvA, srvB, srvC][9223372036854775808 % 3]? = some srvC ∧
    nthCall 0 9223372036854775808 (newLoadBalancer "8001" [srvA, srvB, srvC])
      = .panicked .indexOutOfRange ⟨"8001", minInt, [srvA, srvB, srvC]⟩ := by
  refine ⟨by decide, ?_⟩
  have hnew : newLoadBalancer "8001" [srvA, srvB, srvC]
      = ⟨"8001", ((0 : Nat) : Int), [srvA, srvB, srvC]⟩ := rfl
  rw [hnew, nthCall_allAlive "8001" (by decide) (by decide) 0 9223372036854775808 0
    (by decide) (by decide)]
  decide

/-- C5, amended. For every pool with an alive server (so a non-empty pool of `N` servers)
and every cursor `c ≥ 0`, there is a least `d ≥ 0` with `servers[(c + d) mod N]` alive,
and `d < N`; when `c + d ≤ maxInt`, one call with at least `d` fuel returns
`servers[(c + d) mod N]` and leaves the pool and the port as they were, with the cursor
at `c + d + 1` wrapped into the `int` range, which is exactly `c + d + 1` when
`c + d + 1 ≤ maxInt`. -/
theorem C5_returns_first_alive (port : String) (servers : List Server) (c : Int)
    (hc : 0 ≤ c) (halive : ∃ s ∈ servers, s.IsAlive = true) :
    ∃ d s, d < servers.length ∧
      servers[(c.toNat + d) % servers.length]? = some s ∧ s.IsAlive = true ∧
      (∀ j, j < d → aliveAt servers ((c.toNat + j) % servers.length) = false) ∧
      (c + d ≤ maxInt → ∀ fuel, d ≤ fuel →
        getNextAvailableServer fuel ⟨port, c, servers⟩
          = .returned s ⟨port, wrapInt (c + d + 1), servers⟩ ∧
        (c + d + 1 ≤ maxInt → wrapInt (c + d + 1) = c + d + 1)) := by
  obtain ⟨n, rfl⟩ := Int.eq_ofNat_of_zero_le hc
  simp only [Int.toNat_ofNat]
  obtain ⟨d, hd, ha, hdead⟩ := exists_first_alive halive n
  obtain ⟨s, hs, _⟩ := getElem?_mod_of_pos (by omega : 0 < servers.length) (n + d)
  rw [aliveAt_of_getElem? hs] at ha
  refine ⟨d, s, hd, hs, ha, hdead, ?_⟩
  intro hmax fuel hf
  refine ⟨?_, fun h => wrapInt_of_inRange (by unfold minInt; omega) h⟩
  have := getNext_finds port hf hmax hdead hs ha
  simpa using this

/-- C5, witness: pool [A(dead), B, C], cursor 0. -/
theorem C5_returns_first_alive_witness :
    ∃ d s, d < [deadA, srvB, srvC].length ∧
      [deadA, srvB, srvC][((0 : Int).toNat + d) % [deadA, srvB, srvC].length]? = some s ∧
      s.IsAlive = true ∧
      (∀ j, j < d →
        aliveAt [deadA, srvB, srvC] (((0 : Int).toNat + j) % [deadA, srvB, srvC].length)
          = false) ∧
      ((0 : Int) + d ≤ maxInt → ∀ fuel, d ≤ fuel →
        getNextAvailableServer fuel ⟨"8001", 0, [deadA, srvB, srvC]⟩
          = .returned s ⟨"8001", wrapInt ((0 : Int) + d + 1), [deadA, srvB, srvC]⟩ ∧
        ((0 : Int) + d + 1 ≤ maxInt → wrapInt ((0 : Int) + d + 1) = (0 : Int) + d + 1)) :=
  C5_returns_first_alive "8001" [deadA, srvB, srvC] 0 (by decide) ⟨srvB, by decide, rfl⟩

/-- C5, counterexample to the claim as stated (every non-negative cursor): pool [A], alive,
cursor `c = maxInt`. The server at index `c mod 1` is alive, so `d = 0`, and the call
returns it, but the cursor afterwards is `minInt`, not `c + d + 1`. -/
theorem C5_counterexample :
    0 ≤ maxInt ∧ aliveAt [srvA] (maxInt.toNat % [srvA].length) = true ∧
    getNextAvailableServer 0 ⟨"8001", maxInt, [srvA]⟩
      = .returned srvA ⟨"8001", minInt, [srvA]⟩ ∧
    minInt ≠ maxInt + 0 + 1 := by
  decide

/-- C8. On an empty pool, for every cursor and every fuel, `getNextAvailableServer` panics
with an integer division by zero in the first pool lookup: no server is returned and the
state, cursor included, is the one it was called in. -/
theorem C8_empty_pool_panics (fuel : Nat) (port : String) (c : Int) :
    getNextAvailableServer fuel ⟨port, c, []⟩
      = .panicked .integerDivideByZero ⟨port, c, []⟩ := by
  simp only [getNextAvailableServer, currentServer_empty]

/-- C2, amended. For every pool with a fixed liveness assignment in which a server is
alive: (a) for every cursor and every fuel, a server returned by
`getNextAvailableServer` is alive; (b) from every cursor `c ≥ 0`, the call returns the
server at index `j = (c + d) mod N`, the first alive one from `c` on, and the next call
returns the server at the first alive index after `j`, wrapping around the pool, as long
as the cursor stays in the `int` range over the two calls (`c + d + 1 + e ≤ maxInt`). -/
theorem C2_alive_servers_cyclic (port : String) (servers : List Server) (c : Int)
    (halive : ∃ s ∈ servers, s.IsAlive = true) :
    (∀ fuel s lb1, getNextAvailableServer fuel ⟨port, c, servers⟩ = .returned s lb1 →
        s.IsAlive = true) ∧
      (0 ≤ c →
        ∃ d e s s1, d < servers.length ∧ e < servers.length ∧
          servers[(c.toNat + d) % servers.length]? = some s ∧ s.IsAlive = true ∧
          (∀ j, j < d → aliveAt servers ((c.toNat + j) % servers.length) = false) ∧
          servers[((c.toNat + d) % servers.length + 1 + e) % servers.length]? = some s1 ∧
          s1.IsAlive = true ∧
          (∀ i, i < e →
            aliveAt servers (((c.toNat + d) % servers.length + 1 + i) % servers.length)
              = false) ∧
          (c + d + 1 + e ≤ maxInt → ∀ fuel, d ≤ fuel → e ≤ fuel →
            ∃ lb1 lb2, getNextAvailableServer fuel ⟨port, c, servers⟩ = .returned s lb1 ∧
              getNextAvailableServer fuel lb1 = .returned s1 lb2)) := by
  refine ⟨fun fuel s lb1 h => (getNext_returned h).1, ?_⟩
  intro hc
  obtain ⟨n, rfl⟩ := Int.eq_ofNat_of_zero_le hc
  simp only [Int.toNat_ofNat]
  obtain ⟨d, hd, ha, hdead⟩ := exists_first_alive halive n
  obtain ⟨e, he, ha1, hdead1⟩ := exists_first_alive halive (n + d + 1)
  have hN : 0 < servers.length := by omega
  obtain ⟨s, hs, _⟩ := getElem?_mod_of_pos hN (n + d)
  obtain ⟨s1, hs1, _⟩ := getElem?_mod_of_pos hN (n + d + 1 + e)
  rw [aliveAt_of_getElem? hs] at ha
  rw [aliveAt_of_getElem? hs1] at ha1
  have hidx : ∀ i, ((n + d) % servers.length + 1 + i) % servers.length
      = (n + d + 1 + i) % servers.length := by
    intro i
    rw [Nat.add_assoc, Nat.mod_add_mod, ← Nat.add_assoc]
  refine ⟨d, e, s, s1, hd, he, hs, ha, hdead, by rw [hidx]; exact hs1, ha1,
    fun i hi => by rw [hidx]; exact hdead1 i hi, ?_⟩
  intro hmax fuel hfd hfe
  have h1 := getNext_finds port hfd (by omega) hdead hs ha
  rw [wrapInt_succ_nat (by push_cast; omega)] at h1
  have h2 := getNext_finds port hfe (by push_cast; omega) hdead1 hs1 ha1
  exact ⟨_, _, h1, h2⟩

/-- C2, witness: pool [A(dead), B, C] from cursor 0; three calls return B, C, B. -/
theorem C2_alive_servers_cyclic_witness :
    ((∀ fuel s lb1,
        getNextAvailableServer fuel ⟨"8001", 0, [deadA, srvB, srvC]⟩ = .returned s lb1 →
          s.IsAlive = true) ∧
      ((0 : Int) ≤ 0 →
        ∃ d e s s1, d < [deadA, srvB, srvC].length ∧ e < [deadA, srvB, srvC].length ∧
          [deadA, srvB, srvC][((0 : Int).toNat + d) % [deadA, srvB, srvC].length]? = some s ∧
          s.IsAlive = true ∧
          (∀ j, j < d →
            aliveAt [deadA, srvB, srvC] (((0 : Int).toNat + j) % [deadA, srvB, srvC].length)
              = false) ∧
          [deadA, srvB, srvC][(((0 : Int).toNat + d) % [deadA, srvB, srvC].length + 1 + e)
            % [deadA, srvB, srvC].length]? = some s1 ∧
          s1.IsAlive = true ∧
          (∀ i, i < e →
            aliveAt [deadA, srvB, srvC]
              ((((0 : Int).toNat + d) % [deadA, srvB, srvC].length + 1 + i)
                % [deadA, srvB, srvC].length) = false) ∧
          ((0 : Int) + d + 1 + e ≤ maxInt → ∀ fuel, d ≤ fuel → e ≤ fuel →
            ∃ lb1 lb2,
              getNextAvailableServer fuel ⟨"8001", 0, [deadA, srvB, srvC]⟩ = .returned s lb1 ∧
              getNextAvailableServer fuel lb1 = .returned s1 lb2))) ∧
    firstCalls 1 3 ⟨"8001", 0, [deadA, srvB, srvC]⟩ = [srvB, srvC, srvB] :=
  ⟨C2_alive_servers_cyclic "8001" [deadA, srvB, srvC] 0 ⟨srvB, by decide, rfl⟩, by decide⟩

/-- C2, counterexample to the claim as stated (every starting cursor): pool [A, B, C], all
alive, starting cursor `maxInt`. The first call returns B (index `maxInt mod 3 = 1`); the
next call does not return C, the alive server at the first alive index after 1: the cursor
is `minInt` and the lookup panics. -/
theorem C2_counterexample :
    nthCall 3 0 ⟨"8001", maxInt, [srvA, srvB, srvC]⟩
      = .returned srvB ⟨"8001", minInt, [srvA, srvB, srvC]⟩ ∧
    [srvA, srvB, srvC][1]? = some srvB ∧ [srvA, srvB, srvC][2]? = some srvC ∧
    nthCall 3 1 ⟨"8001", maxInt, [srvA, srvB, srvC]⟩
      = .panicked .indexOutOfRange ⟨"8001", minInt, [srvA, srvB, srvC]⟩ := by
  decide

/-- C3, amended. `getNextAvailableServer` has no AllServersDown report. On a non-empty pool
of `N` servers, none alive, it never returns a server, for any cursor and any fuel; and
from a cursor `c ≥ 0` with `c + N ≤ maxInt`, after `N` executions of the loop body, every
server of the pool probed, it is still in its loop, the cursor at `c + N`. -/
theorem C3_no_all_servers_down (port : String) (servers : List Server) (c : Int)
    (hne : servers ≠ []) (hdead : ∀ s ∈ servers, s.IsAlive = false) :
    (∀ fuel s lb1, getNextAvailableServer fuel ⟨port, c, servers⟩ ≠ .returned s lb1) ∧
      (0 ≤ c → c + servers.length ≤ maxInt →
        getNextAvailableServer servers.length ⟨port, c, servers⟩
          = .running ⟨port, c + servers.length, servers⟩) := by
  refine ⟨fun fuel s lb1 => getNext_never_returns_allDead hdead fuel port c s lb1, ?_⟩
  intro hc hmax
  obtain ⟨n, rfl⟩ := Int.eq_ofNat_of_zero_le hc
  have := getNext_runs port (List.length_pos.mpr hne)
    (fun j (_ : j ≤ servers.length) => aliveAt_false_of_allDead hdead ((n + j) % servers.length))
    hmax
  simpa using this

/-- C3, witness: pool [A(dead), B(dead), C(dead)], cursor 0. -/
theorem C3_no_all_servers_down_witness :
    (∀ fuel s lb1,
        getNextAvailableServer fuel ⟨"8001", 0, [deadA, deadB, deadC]⟩ ≠ .returned s lb1) ∧
      ((0 : Int) ≤ 0 → (0 : Int) + [deadA, deadB, deadC].length ≤ maxInt →
        getNextAvailableServer [deadA, deadB, deadC].length ⟨"8001", 0, [deadA, deadB, deadC]⟩
          = .running ⟨"8001", (0 : Int) + [deadA, deadB, deadC].length,
              [deadA, deadB, deadC]⟩) :=
  C3_no_all_servers_down "8001" [deadA, deadB, deadC] 0 (by decide) (by decide)

/-- C3, counterexample to the claim as stated: pool [A(dead), B(dead), C(dead)], cursor 0.
After three executions of the loop body (four probes, more than the pool size) the call
has neither returned nor reported an error: it is still looping, the cursor at 3; after
a hundred executions it still is. -/
theorem C3_counterexample :
    getNextAvailableServer 3 ⟨"8001", 0, [deadA, deadB, deadC]⟩
      = .running ⟨"8001", 3, [deadA, deadB, deadC]⟩ ∧
    getNextAvailableServer 100 ⟨"8001", 0, [deadA, deadB, deadC]⟩
      = .running ⟨"8001", 100, [deadA, deadB, deadC]⟩ := by
  decide

/-- C9, amended. On a non-empty pool in which no server is alive (liveness fixed),
`getNextAvailableServer` as written never returns a server, for any cursor and any number
of loop iterations; from a cursor `c ≥ 0` it takes no error path either during the first
`maxInt - c` iterations, each of which advances the cursor by one; and on a pool of one
server it loops forever from every cursor. -/
theorem C9_all_dead_keeps_looping (port : String) (servers : List Server) (c : Int)
    (hne : servers ≠ []) (hdead : ∀ s ∈ servers, s.IsAlive = false) :
    (∀ fuel s lb1, getNextAvailableServer fuel ⟨port, c, servers⟩ ≠ .returned s lb1) ∧
      (0 ≤ c → ∀ fuel : Nat, c + fuel ≤ maxInt →
        getNextAvailableServer fuel ⟨port, c, servers⟩
          = .running ⟨port, c + fuel, servers⟩) ∧
      (servers.length = 1 → ∀ fuel : Nat,
        ∃ lb1, getNextAvailableServer fuel ⟨port, c, servers⟩ = .running lb1) := by
  refine ⟨fun fuel s lb1 => getNext_never_returns_allDead hdead fuel port c s lb1, ?_, ?_⟩
  · intro hc fuel hmax
    obtain ⟨n, rfl⟩ := Int.eq_ofNat_of_zero_le hc
    have := getNext_runs port (List.length_pos.mpr hne)
      (fun j (_ : j ≤ fuel) => aliveAt_false_of_allDead hdead ((n + j) % servers.length)) hmax
    simpa using this
  · intro h1 fuel
    obtain ⟨s, rfl⟩ := List.length_eq_one.mp h1
    have hd : s.IsAlive = false := hdead s (List.mem_singleton.mpr rfl)
    obtain ⟨lb1, hl⟩ := skipLoop_single_dead port hd fuel c
    exact ⟨lb1, by simp only [getNextAvailableServer, currentServer_single, hl]⟩

/-- C9, witness: pool [A(dead), B(dead), C(dead)], cursor 0. -/
theorem C9_all_dead_keeps_looping_witness :
    ((∀ fuel s lb1,
        getNextAvailableServer fuel ⟨"8001", 0, [deadA, deadB, deadC]⟩ ≠ .returned s lb1) ∧
      ((0 : Int) ≤ 0 → ∀ fuel : Nat, (0 : Int) + fuel ≤ maxInt →
        getNextAvailableServer fuel ⟨"8001", 0, [deadA, deadB, deadC]⟩
          = .running ⟨"8001", (0 : Int) + fuel, [deadA, deadB, deadC]⟩) ∧
      ([deadA, deadB, deadC].length = 1 → ∀ fuel : Nat,
        ∃ lb1, getNextAvailableServer fuel ⟨"8001", 0, [deadA, deadB, deadC]⟩
          = .running lb1)) ∧
    getNextAvailableServer 7 ⟨"8001", 0, [deadA, deadB, deadC]⟩
      = .running ⟨"8001", 7, [deadA, deadB, deadC]⟩ :=
  ⟨C9_all_dead_keeps_looping "8001" [deadA, deadB, deadC] 0 (by decide) (by decide),
    by decide⟩

/-- C9, counterexample to the claim as stated (every starting cursor, no error path ever):
pool [A(dead), B(dead)], starting cursor `maxInt`. The second execution of the loop body
moves the cursor to `minInt + 1`, the index `(minInt + 1) % 2` is `-1`, and the call ends
in an index-out-of-range panic. -/
theorem C9_counterexample :
    getNextAvailableServer 2 ⟨"8001", maxInt, [deadA, deadB]⟩
      = .panicked .indexOutOfRange ⟨"8001", minInt + 1, [deadA, deadB]⟩ := by
  decide

/-- C6, amended. For every request handled by `serveProxy`, in every state (any cursor,
negative ones included, and any pool): whenever the selection call returns a server,
exactly two events happen, in this order: one log line, naming that server's `Address()`,
and one `Serve`, of that server with that request; and the state afterwards is the state
after that single selection call. On a pool with an alive server (so a non-empty pool)
and a cursor `c ≥ 0`, the selection call does return, with `d` fuel or more, `d < N`
being the distance to the first alive server, as long as `c + d ≤ maxInt`. -/
theorem C6_serveProxy_serves_selected {ρ : Type} (port : String) (servers : List Server)
    (c : Int) (req : ρ) :
    (∀ fuel s lb1, getNextAvailableServer fuel ⟨port, c, servers⟩ = .returned s lb1 →
        serveProxy fuel ⟨port, c, servers⟩ req
          = .finished [.printf "forwarding request to address %q\n" s.Address,
              .serve s req] lb1) ∧
      ((∃ s ∈ servers, s.IsAlive = true) → 0 ≤ c →
        ∃ d, d < servers.length ∧
          aliveAt servers ((c.toNat + d) % servers.length) = true ∧
          (∀ j, j < d → aliveAt servers ((c.toNat + j) % servers.length) = false) ∧
          (c + d ≤ maxInt → ∀ fuel, d ≤ fuel →
            ∃ s lb1, s ∈ servers ∧ s.IsAlive = true ∧
              getNextAvailableServer fuel ⟨port, c, servers⟩ = .returned s lb1 ∧
              serveProxy fuel ⟨port, c, servers⟩ req
                = .finished [.printf "forwarding request to address %q\n" s.Address,
                    .serve s req] lb1)) := by
  have hfirst : ∀ (c1 : Int) fuel s lb1,
      getNextAvailableServer fuel ⟨port, c1, servers⟩ = .returned s lb1 →
        serveProxy fuel ⟨port, c1, servers⟩ req
          = .finished [.printf "forwarding request to address %q\n" s.Address,
              .serve s req] lb1 := by
    intro c1 fuel s lb1 h
    simp only [serveProxy, h]
  refine ⟨hfirst c, ?_⟩
  intro halive hc
  obtain ⟨n, rfl⟩ := Int.eq_ofNat_of_zero_le hc
  simp only [Int.toNat_ofNat]
  obtain ⟨d, hd, ha, hdead⟩ := exists_first_alive halive n
  refine ⟨d, hd, ha, hdead, ?_⟩
  intro hmax fuel hf
  obtain ⟨s, hs, hmem⟩ := getElem?_mod_of_pos (by omega : 0 < servers.length) (n + d)
  rw [aliveAt_of_getElem? hs] at ha
  have hcall := getNext_finds port hf hmax hdead hs ha
  exact ⟨s, _, hmem, ha, hcall, hfirst _ fuel s _ hcall⟩

/-- C6, witness: pool [A(dead), B, C], cursor 0, request "GET /"; and a state with a
negative cursor in which the selection returns: pool [A, B, C], cursor -3. -/
theorem C6_serveProxy_serves_selected_witness :
    ((∀ fuel s lb1,
        getNextAvailableServer fuel ⟨"8001", 0, [deadA, srvB, srvC]⟩ = .returned s lb1 →
          serveProxy fuel ⟨"8001", 0, [deadA, srvB, srvC]⟩ "GET /"
            = .finished [.printf "forwarding request to address %q\n" s.Address,
                .serve s "GET /"] lb1) ∧
      ((∃ s ∈ [deadA, srvB, srvC], s.IsAlive = true) → (0 : Int) ≤ 0 →
        ∃ d, d < [deadA, srvB, srvC].length ∧
          aliveAt [deadA, srvB, srvC] (((0 : Int).toNat + d) % [deadA, srvB, srvC].length)
            = true ∧
          (∀ j, j < d →
            aliveAt [deadA, srvB, srvC] (((0 : Int).toNat + j) % [deadA, srvB, srvC].length)
              = false) ∧
          ((0 : Int) + d ≤ maxInt → ∀ fuel, d ≤ fuel →
            ∃ s lb1, s ∈ [deadA, srvB, srvC] ∧ s.IsAlive = true ∧
              getNextAvailableServer fuel ⟨"8001", 0, [deadA, srvB, srvC]⟩
                = .returned s lb1 ∧
              serveProxy fuel ⟨"8001", 0, [deadA, srvB, srvC]⟩ "GET /"
                = .finished [.printf "forwarding request to address %q\n" s.Address,
                    .serve s "GET /"] lb1))) ∧
    serveProxy 1 ⟨"8001", 0, [deadA, srvB, srvC]⟩ "GET /"
      = .finished [.printf "forwarding request to address %q\n" "https://www.amazon.com",
          .serve srvB "GET /"] ⟨"8001", 2, [deadA, srvB, srvC]⟩ ∧
    serveProxy 0 ⟨"8001", -3, [srvA, srvB, srvC]⟩ "GET /"
      = .finished [.printf "forwarding request to address %q\n" "https://www.github.com",
          .serve srvA "GET /"] ⟨"8001", -2, [srvA, srvB, srvC]⟩ :=
  ⟨C6_serveProxy_serves_selected "8001" [deadA, srvB, srvC] 0 "GET /",
    by decide,
    (C6_serveProxy_serves_selected "8001" [srvA, srvB, srvC] (-3) "GET /").1 0 srvA
      ⟨"8001", -2, [srvA, srvB, srvC]⟩ (by decide)⟩

/-- C6, counterexample to the claim as stated (every request on a non-empty pool with an
alive server): pool [A, B, C], all alive, in the state that `2^63` returning calls lead to
from `newLoadBalancer`, the cursor at `minInt`. `serveProxy` panics in the selection call:
no log line is written and no server's `Serve` is invoked. -/
theorem C6_counterexample :
    ReachedIn 0 (newLoadBalancer "8001" [srvA, srvB, srvC]) 9223372036854775808
      ⟨"8001", minInt, [srvA, srvB, srvC]⟩ ∧
    serveProxy 0 ⟨"8001", minInt, [srvA, srvB, srvC]⟩ "GET /"
      = .panicked [] .indexOutOfRange ⟨"8001", minInt, [srvA, srvB, srvC]⟩ := by
  refine ⟨?_, by decide⟩
  have h := reachedIn_allAlive "8001"
    (by decide : ∀ s ∈ [srvA, srvB, srvC], s.IsAlive = true) (by decide)
    0 0 9223372036854775807 (by decide)
  have hlast : getNextAvailableServer 0 ⟨"8001", ((0 + 9223372036854775807 : Nat) : Int),
      [srvA, srvB, srvC]⟩ = .returned srvB ⟨"8001", minInt, [srvA, srvB, srvC]⟩ := by
    decide
  exact ReachedIn.call h hlast

/-- C7. For every address string, with `url.Parse` as `parse`: `newSimpleServer` goes on
with a server exactly when the address parses; when parsing fails with error `e`, it
prints the error and the process exits with status 1, no server built; when parsing
succeeds with `u`, nothing is printed, there is no exit, and the server returned has the
input string as its `Address()` and a proxy bound to `u`. -/
theorem C7_newSimpleServer_parse (parse : String → Except String URL) (addr : String) :
    ((∃ printed srv, newSimpleServer parse addr = .continues printed srv) ↔
        ∃ u, parse addr = .ok u) ∧
      (∀ e, parse addr = .error e →
        newSimpleServer parse addr = .exited [("error: %v\n", e)] 1) ∧
      (∀ u, parse addr = .ok u →
        ∃ srv, newSimpleServer parse addr = .continues [] srv ∧ srv.Address = addr ∧
          srv.toServer.Address = addr ∧ srv.proxy.target = some u) := by
  cases hp : parse addr with
  | error e =>
    have hrun : newSimpleServer parse addr = .exited [("error: %v\n", e)] 1 := by
      simp only [newSimpleServer, hp, handleErr]
    refine ⟨⟨?_, ?_⟩, ?_, ?_⟩
    · rintro ⟨printed, srv, h⟩
      rw [hrun] at h
      cases h
    · rintro ⟨u, hu⟩
      cases hu
    · intro e1 he1
      cases he1
      exact hrun
    · intro u hu
      cases hu
  | ok u =>
    have hrun : newSimpleServer parse addr = .continues [] ⟨addr, ⟨some u⟩⟩ := by
      simp only [newSimpleServer, hp, handleErr]
    refine ⟨⟨fun _ => ⟨u, rfl⟩, fun _ => ⟨_, _, hrun⟩⟩, ?_, ?_⟩
    · intro e he
      cases he
    · intro u1 hu1
      cases hu1
      exact ⟨_, hrun, rfl, rfl, rfl⟩

/-- C7, witness: a well-formed address and one holding a control character. -/
theorem C7_newSimpleServer_parse_witness :
    (((∃ printed srv,
          newSimpleServer sampleParse "https://www.github.com" = .continues printed srv) ↔
        ∃ u, sampleParse "https://www.github.com" = .ok u) ∧
      (∀ e, sampleParse "https://www.github.com" = .error e →
        newSimpleServer sampleParse "https://www.github.com"
          = .exited [("error: %v\n", e)] 1) ∧
      (∀ u, sampleParse "https://www.github.com" = .ok u →
        ∃ srv, newSimpleServer sampleParse "https://www.github.com" = .continues [] srv ∧
          srv.Address = "https://www.github.com" ∧
          srv.toServer.Address = "https://www.github.com" ∧ srv.proxy.target = some u)) ∧
    newSimpleServer sampleParse "https://www.github.com"
      = .continues [] ⟨"https://www.github.com", ⟨some ⟨"https://www.github.com"⟩⟩⟩ ∧
    newSimpleServer sampleParse "http://bad\x7f"
      = .exited [("error: %v\n", "net/url: invalid control character in URL")] 1 :=
  ⟨C7_newSimpleServer_parse sampleParse "https://www.github.com", by decide, by decide⟩

/-- C10, amended. The cursor `roundRobinCount` is a signed 64-bit counter. In every state
reached from `newLoadBalancer` by `k` returning selection calls on a pool of `N` servers
with an alive one, with `k * N ≤ maxInt`: the cursor `c` satisfies `0 ≤ c ≤ k * N`, the
index `c % N` lies in `[0, N)` and the pool lookup at it succeeds; and when moreover
`c + N ≤ maxInt`, the next call returns a server given `N` fuel, and every returning call
leaves the cursor strictly greater, by at most `N`. -/
theorem C10_cursor_monotone_in_range (fuel : Nat) (port : String) (servers : List Server)
    (k : Nat) (lb : LoadBalancer) (halive : ∃ s ∈ servers, s.IsAlive = true)
    (hr : ReachedIn fuel (newLoadBalancer port servers) k lb)
    (hk : (k : Int) * servers.length ≤ maxInt) :
    lb.port = port ∧ lb.servers = servers ∧
      0 ≤ lb.roundRobinCount ∧ lb.roundRobinCount ≤ (k : Int) * servers.length ∧
      0 ≤ Int.tmod lb.roundRobinCount servers.length ∧
      Int.tmod lb.roundRobinCount servers.length < servers.length ∧
      (∃ s, currentServer lb = .ok s) ∧
      (lb.roundRobinCount + servers.length ≤ maxInt →
        (∀ fuel1, servers.length ≤ fuel1 →
          ∃ s lb1, getNextAvailableServer fuel1 lb = .returned s lb1) ∧
        (∀ fuel1 s lb1, getNextAvailableServer fuel1 lb = .returned s lb1 →
          lb.roundRobinCount < lb1.roundRobinCount ∧
            lb1.roundRobinCount ≤ lb.roundRobinCount + servers.length)) := by
  have hN : 0 < servers.length := by
    obtain ⟨s, hmem, _⟩ := halive
    exact List.length_pos_of_mem hmem
  obtain ⟨hp, hs, h0, hle⟩ := reachedIn_inv halive hr hk
  obtain ⟨p1, c1, sv1⟩ := lb
  simp only at hp hs h0 hle
  subst hp hs
  obtain ⟨n, rfl⟩ := Int.eq_ofNat_of_zero_le h0
  obtain ⟨s0, hs0, _⟩ := getElem?_mod_of_pos hN n
  refine ⟨rfl, rfl, h0, hle, ?_, ?_, ⟨s0, currentServer_nat hs0⟩, ?_⟩
  · show 0 ≤ Int.tmod (n : Int) (sv1.length : Int)
    rw [Int.tmod_eq_emod (by omega) (by omega)]
    exact Int.emod_nonneg _ (by omega)
  · show Int.tmod (n : Int) (sv1.length : Int) < (sv1.length : Int)
    rw [Int.tmod_eq_emod (by omega) (by omega)]
    exact Int.emod_lt_of_pos _ (by omega)
  · intro hroom
    have hroom1 : (n : Int) + sv1.length ≤ maxInt := hroom
    constructor
    · intro fuel1 hf
      obtain ⟨d, hd, ha, hdead⟩ := exists_first_alive halive n
      obtain ⟨s, hs, _⟩ := getElem?_mod_of_pos hN (n + d)
      rw [aliveAt_of_getElem? hs] at ha
      exact ⟨s, _, getNext_finds p1 (by omega) (by omega) hdead hs ha⟩
    · intro fuel1 s lb1 h
      exact getNext_returned_cursor halive hroom1 h

/-- C10, witness: pool [A, B, C], all alive, the state after two calls. -/
theorem C10_cursor_monotone_in_range_witness :
    (⟨"8001", 2, [srvA, srvB, srvC]⟩ : LoadBalancer).port = "8001" ∧
      (⟨"8001", 2, [srvA, srvB, srvC]⟩ : LoadBalancer).servers = [srvA, srvB, srvC] ∧
      0 ≤ (⟨"8001", 2, [srvA, srvB, srvC]⟩ : LoadBalancer).roundRobinCount ∧
      (⟨"8001", 2, [srvA, srvB, srvC]⟩ : LoadBalancer).roundRobinCount
        ≤ ((2 : Nat) : Int) * [srvA, srvB, srvC].length ∧
      0 ≤ Int.tmod (⟨"8001", 2, [srvA, srvB, srvC]⟩ : LoadBalancer).roundRobinCount
        [srvA, srvB, srvC].length ∧
      Int.tmod (⟨"8001", 2, [srvA, srvB, srvC]⟩ : LoadBalancer).roundRobinCount
        [srvA, srvB, srvC].length < [srvA, srvB, srvC].length ∧
      (∃ s, currentServer ⟨"8001", 2, [srvA, srvB, srvC]⟩ = .ok s) ∧
      ((⟨"8001", 2, [srvA, srvB, srvC]⟩ : LoadBalancer).roundRobinCount
          + [srvA, srvB, srvC].length ≤ maxInt →
        (∀ fuel1, [srvA, srvB, srvC].length ≤ fuel1 →
          ∃ s lb1, getNextAvailableServer fuel1 ⟨"8001", 2, [srvA, srvB, srvC]⟩
            = .returned s lb1) ∧
        (∀ fuel1 s lb1,
          getNextAvailableServer fuel1 ⟨"8001", 2, [srvA, srvB, srvC]⟩ = .returned s lb1 →
          (⟨"8001", 2, [srvA, srvB, srvC]⟩ : LoadBalancer).roundRobinCount
              < lb1.roundRobinCount ∧
            lb1.roundRobinCount
              ≤ (⟨"8001", 2, [srvA, srvB, srvC]⟩ : LoadBalancer).roundRobinCount
                + [srvA, srvB, srvC].length)) :=
  C10_cursor_monotone_in_range 0 "8001" [srvA, srvB, srvC] 2 ⟨"8001", 2, [srvA, srvB, srvC]⟩
    ⟨srvA, by decide, rfl⟩
    (ReachedIn.call (ReachedIn.call ReachedIn.start (by decide : getNextAvailableServer 0
        (newLoadBalancer "8001" [srvA, srvB, srvC])
          = .returned srvA ⟨"8001", 1, [srvA, srvB, srvC]⟩))
      (by decide : getNextAvailableServer 0 ⟨"8001", 1, [srvA, srvB, srvC]⟩
          = .returned srvB ⟨"8001", 2, [srvA, srvB, srvC]⟩))
    (by decide)

/-- C10, counterexample to the claim as stated: pool [A, B, C], all alive. The state with
the cursor at `maxInt` is reached from `newLoadBalancer` by `2^63 - 1` returning calls.
The next call returns B and leaves the cursor at `minInt`: negative, and not greater than
before. The call after that computes the index `minInt % 3 = -2` and panics on the pool
lookup. -/
theorem C10_counterexample :
    ReachedIn 0 (newLoadBalancer "8001" [srvA, srvB, srvC]) 9223372036854775807
      ⟨"8001", maxInt, [srvA, srvB, srvC]⟩ ∧
    getNextAvailableServer 0 ⟨"8001", maxInt, [srvA, srvB, srvC]⟩
      = .returned srvB ⟨"8001", minInt, [srvA, srvB, srvC]⟩ ∧
    minInt < 0 ∧ ¬ (maxInt < minInt) ∧
    Int.tmod minInt (([srvA, srvB, srvC].length : Nat) : Int) = -2 ∧
    getNextAvailableServer 0 ⟨"8001", minInt, [srvA, srvB, srvC]⟩
      = .panicked .indexOutOfRange ⟨"8001", minInt, [srvA, srvB, srvC]⟩ := by
  refine ⟨?_, by decide, by decide, by decide, by decide, by decide⟩
  exact reachedIn_allAlive "8001"
    (by decide : ∀ s ∈ [srvA, srvB, srvC], s.IsAlive = true) (by decide)
    0 0 9223372036854775807 (by decide)

end LoadBalancingProxyServer
